import Mathlib

/-!
Verification of the rollout / advantage-estimation / update core of the
rl-gym-zoo training scripts.  Scalars computed by the scripts are modelled
as rationals; arrays of shape (num_steps, num_envs) are modelled as
functions `Nat → Nat → ℚ` (step index first, environment column second),
and the imperative backward loops are modelled as folds over the reversed
index range, exactly mirroring the source statements.
-/

namespace RlGymZoo

/-- The list `[n-1, n-2, ..., 0]`: the iteration order of
`for i in reversed(range(n))`. -/
def revRange : Nat → List Nat
  | 0 => []
  | n + 1 => n :: revRange n

/-- Loop body iteration of `compute_advantages`
(src/src/ppo/pytorch_ppo_atari.py, lines 71-78).  The loop state is the
`advantages` array together with the `adv` accumulator and `last_value`,
each a vector over environment columns.  Note that in this script the
`flags` array already holds `1 - done` (the caller stores
`flag = 1.0 - np.logical_or(terminated, truncated)`). -/
def advLoop (gamma gae : ℚ) (rewards flags values : Nat → Nat → ℚ) :
    List Nat → ((Nat → Nat → ℚ) × (Nat → ℚ) × (Nat → ℚ)) →
      ((Nat → Nat → ℚ) × (Nat → ℚ) × (Nat → ℚ))
  | [], s => s
  | i :: rest, (advantages, adv, last_value) =>
    let returns : Nat → ℚ := fun e => rewards i e + gamma * flags i e * last_value e
    let delta : Nat → ℚ := fun e => returns e - values i e
    let adv2 : Nat → ℚ := fun e => delta e + gamma * gae * flags i e * adv e
    advLoop gamma gae rewards flags values rest
      (fun t e => if t = i then adv2 e else advantages t e, adv2, fun e => values i e)

/-- `compute_advantages` of src/src/ppo/pytorch_ppo_atari.py (lines 67-80):
`advantages` and `adv` start at zero, `last_value` starts at the bootstrap
value of the post-window state, and the loop runs over
`reversed(range(num_steps))`. -/
def compute_advantages (num_steps : Nat) (gamma gae : ℚ)
    (rewards flags values : Nat → Nat → ℚ) (last_value : Nat → ℚ) :
    Nat → Nat → ℚ :=
  (advLoop gamma gae rewards flags values (revRange num_steps)
    (fun _ _ => 0, fun _ => 0, last_value)).1

/-- Loop body iteration of `compute_gae`
(src/src/ppo/flax_ppo_continuous.py, lines 117-127).  Here `flags` holds
the raw done flags (`np.logical_or(terminated, truncated)`) and the body
forms `terminal = 1 - flags[i]`. -/
def gaeLoop (gamma gae : ℚ) (rewards state_values flags : Nat → Nat → ℚ) :
    List Nat → ((Nat → Nat → ℚ) × (Nat → ℚ) × (Nat → ℚ)) →
      ((Nat → Nat → ℚ) × (Nat → ℚ) × (Nat → ℚ))
  | [], s => s
  | i :: rest, (advantages, adv, next_state_value) =>
    let terminal : Nat → ℚ := fun e => 1 - flags i e
    let returns : Nat → ℚ := fun e => rewards i e + gamma * next_state_value e * terminal e
    let delta : Nat → ℚ := fun e => returns e - state_values i e
    let adv2 : Nat → ℚ := fun e => gamma * gae * adv e * terminal e + delta e
    gaeLoop gamma gae rewards state_values flags rest
      (fun t e => if t = i then adv2 e else advantages t e, adv2, fun e => state_values i e)

/-- `compute_gae` of src/src/ppo/flax_ppo_continuous.py (lines 112-128). -/
def compute_gae (num_steps : Nat) (rewards state_values flags : Nat → Nat → ℚ)
    (next_state_value : Nat → ℚ) (gamma gae : ℚ) : Nat → Nat → ℚ :=
  (gaeLoop gamma gae rewards state_values flags (revRange num_steps)
    (fun _ _ => 0, fun _ => 0, next_state_value)).1

/-- One (state, action, reward, flag, log_prob, value) row across all
environment columns, as pushed by the rollout loop. -/
@[ext]
structure Transition (S A : Type) where
  state : Nat → S
  action : Nat → A
  reward : Nat → ℚ
  flag : Nat → ℚ
  log_prob : Nat → ℚ
  value : Nat → ℚ

/-- Write `row` into step slot `i` of a `(num_steps, num_envs)` array:
the semantics of `self.xs[self.step] = x`. -/
def writeRow {α : Type} (arr : Nat → Nat → α) (i : Nat) (row : Nat → α) :
    Nat → Nat → α :=
  fun t e => if t = i then row e else arr t e

/-- `RolloutBuffer` of src/src/ppo/pytorch_ppo_atari.py (lines 83-114):
six parallel `(num_steps, num_envs)` arrays plus a write cursor.  The
element types of states and actions are abstract (`S`, `A`); the four
scalar arrays are rational valued. -/
structure RolloutBuffer (S A : Type) where
  states : Nat → Nat → S
  actions : Nat → Nat → A
  rewards : Nat → Nat → ℚ
  flags : Nat → Nat → ℚ
  log_probs : Nat → Nat → ℚ
  values : Nat → Nat → ℚ
  step : Nat
  num_steps : Nat

/-- `RolloutBuffer.__init__`: zero-filled arrays (`s0`/`a0` standing for
the zero elements of the state/action types) and cursor `step = 0`. -/
def RolloutBuffer.init (S A : Type) (num_steps : Nat) (s0 : S) (a0 : A) :
    RolloutBuffer S A :=
  ⟨fun _ _ => s0, fun _ _ => a0, fun _ _ => 0, fun _ _ => 0, fun _ _ => 0,
    fun _ _ => 0, 0, num_steps⟩

/-- `RolloutBuffer.push` (lines 96-104): write each component into the
cursor slot, then advance the cursor modulo `num_steps`. -/
def RolloutBuffer.push {S A : Type} (b : RolloutBuffer S A)
    (u : Transition S A) : RolloutBuffer S A :=
  { states := writeRow b.states b.step u.state
    actions := writeRow b.actions b.step u.action
    rewards := writeRow b.rewards b.step u.reward
    flags := writeRow b.flags b.step u.flag
    log_probs := writeRow b.log_probs b.step u.log_prob
    values := writeRow b.values b.step u.value
    step := (b.step + 1) % b.num_steps
    num_steps := b.num_steps }

/-- `RolloutBuffer.get` (lines 106-114): return the six arrays (the
`torch.from_numpy(...).to(device)` conversions are content-preserving). -/
def RolloutBuffer.get {S A : Type} (b : RolloutBuffer S A) :
    (Nat → Nat → S) × (Nat → Nat → A) × (Nat → Nat → ℚ) × (Nat → Nat → ℚ) ×
      (Nat → Nat → ℚ) × (Nat → Nat → ℚ) :=
  (b.states, b.actions, b.rewards, b.flags, b.log_probs, b.values)

/-- Push a list of transitions in order (the `num_steps` iterations of the
rollout loop, one `push` per tick). -/
def pushList {S A : Type} (b : RolloutBuffer S A) :
    List (Transition S A) → RolloutBuffer S A
  | [] => b
  | u :: rest => pushList (b.push u) rest

/-- The step-`t` row of a buffer, bundled as a `Transition`. -/
def RolloutBuffer.row {S A : Type} (b : RolloutBuffer S A) (t : Nat) :
    Transition S A :=
  ⟨fun e => b.states t e, fun e => b.actions t e, fun e => b.rewards t e,
    fun e => b.flags t e, fun e => b.log_probs t e, fun e => b.values t e⟩

/-- The slice `batch_indexes[start:end]` with `start = k * minibatch_size`
and `end = start + minibatch_size`
(src/src/ppo/pytorch_ppo_atari.py, lines 297-299; identically, row `k` of
the `(num_minibatches, minibatch_size)` reshape in
src/src/ppo/flax_ppo_continuous.py, lines 152-156). -/
def minibatchIndexes (batch_indexes : List Nat) (minibatch_size k : Nat) :
    List Nat :=
  (batch_indexes.drop (k * minibatch_size)).take minibatch_size

/-- All minibatch index slices of one epoch: `start` ranges over
`range(0, batch_size, minibatch_size)`, i.e. `k` over
`range(num_minibatches)`. -/
def epochMinibatches (batch_indexes : List Nat)
    (num_minibatches minibatch_size : Nat) : List (List Nat) :=
  (List.range num_minibatches).map (minibatchIndexes batch_indexes minibatch_size)

/-- The fancy-indexing gather `arr[index]` applied to a flattened batch
component (src/src/ppo/pytorch_ppo_atari.py, lines 302, 305, 315-320:
`states[index]`, `actions[index]`, `log_probs[index]`,
`advantages[index]`, `td_target[index]`). -/
def gather {β : Type} (arr : Nat → β) (idx : List Nat) : List β :=
  idx.map arr

/-- Loop body of `compute_td_target`
(src/src/a2c/flax_a2c_continuous.py, lines 116-125), for one environment
column (the function is `vmap`-ped over columns): the state is the
accumulated `td_target` list and the `gain` scalar; each iteration appends
the new gain. -/
def tdLoop (gamma : ℚ) (rewards flags : Nat → ℚ) :
    List Nat → (List ℚ × ℚ) → (List ℚ × ℚ)
  | [], s => s
  | i :: rest, (td_target, gain) =>
    let terminal : ℚ := 1 - flags i
    let gain2 : ℚ := rewards i + gain * gamma * terminal
    tdLoop gamma rewards flags rest (td_target ++ [gain2], gain2)

/-- `compute_td_target` of src/src/a2c/flax_a2c_continuous.py
(lines 114-125) at environment column `e`: run the reversed-range loop
from `gain = 0` and reverse the accumulated list. -/
def compute_td_target (rewards flags : Nat → Nat → ℚ) (gamma : ℚ)
    (num_steps e : Nat) : List ℚ :=
  ((tdLoop gamma (fun i => rewards i e) (fun i => flags i e)
    (revRange num_steps) ([], 0)).1).reverse

/-- Loop body of the inline TD-target computation of
src/src/a2c/pytorch_a2c_continuous.py (lines 198-204): identical
recursion, but writing into a `(num_steps, num_envs)` array. -/
def tdArrLoop (gamma : ℚ) (rewards flags : Nat → Nat → ℚ) :
    List Nat → ((Nat → Nat → ℚ) × (Nat → ℚ)) → ((Nat → Nat → ℚ) × (Nat → ℚ))
  | [], s => s
  | i :: rest, (td_target, gain) =>
    let terminal : Nat → ℚ := fun e => 1 - flags i e
    let gain2 : Nat → ℚ := fun e => rewards i e + gain e * gamma * terminal e
    tdArrLoop gamma rewards flags rest
      (fun t e => if t = i then gain2 e else td_target t e, gain2)

/-- The TD-target array of src/src/a2c/pytorch_a2c_continuous.py
(lines 198-204): zero-initialized array and gain. -/
def td_target_torch (num_steps : Nat) (gamma : ℚ)
    (rewards flags : Nat → Nat → ℚ) : Nat → Nat → ℚ :=
  (tdArrLoop gamma rewards flags (revRange num_steps)
    (fun _ _ => 0, fun _ => 0)).1

/-- Mean of a list of rationals (`torch.mean`). -/
def listMean (l : List ℚ) : ℚ := l.sum / l.length

/-- `torch.var` with its default unbiased estimator: sum of squared
deviations divided by `n - 1`. -/
def torchVar (l : List ℚ) : ℚ :=
  ((l.map (fun x => (x - listMean l) ^ 2)).sum) / ((l.length : ℚ) - 1)

/-- The explained-variance expression of src/src/ppo/pytorch_ppo_atari.py
(lines 334-336):
`np.nan if torch.var(td_target) == 0
 else 1 - torch.var(td_target - values) / torch.var(td_target)`.
`none` models the NaN sentinel; the conditional guards the division, which
is only reached in the `else` branch. -/
def explained_var (td_target values : List ℚ) : Option ℚ :=
  if torchVar td_target = 0 then none
  else some (1 - torchVar (List.zipWith (fun a b => a - b) td_target values)
    / torchVar td_target)

/-- The derived startup quantities of a flax PPO configuration
(src/src/ppo/flax_ppo_continuous.py, `parse_args`, lines 36-42). -/
structure FlaxPpoArgs where
  total_timesteps : Nat
  num_envs : Nat
  num_steps : Nat
  num_minibatches : Nat
  batch_size : Nat
  minibatch_size : Nat
  num_updates : Nat
deriving DecidableEq

/-- The derived startup quantities of a pytorch PPO configuration
(src/src/ppo/pytorch_ppo_atari.py, `parse_args`, lines 36-43). -/
structure TorchPpoArgs where
  total_timesteps : Nat
  num_envs : Nat
  num_steps : Nat
  minibatch_size : Nat
  batch_size : Nat
  num_minibatches : Nat
  num_updates : Nat
deriving DecidableEq

/-- Startup derivation of src/src/ppo/flax_ppo_continuous.py `parse_args`
(lines 36-42): `batch_size = num_envs * num_steps`,
`minibatch_size = batch_size // num_minibatches`,
`num_updates = total_timesteps // batch_size`.  The source contains no
validation and no failure path, which the `Except` codomain makes
explicit: the result is always `ok`. -/
def parse_args_flax (total_timesteps num_envs num_steps num_minibatches : Nat) :
    Except String FlaxPpoArgs :=
  let batch_size := num_envs * num_steps
  let minibatch_size := batch_size / num_minibatches
  let num_updates := total_timesteps / batch_size
  Except.ok ⟨total_timesteps, num_envs, num_steps, num_minibatches,
    batch_size, minibatch_size, num_updates⟩

/-- Startup derivation of src/src/ppo/pytorch_ppo_atari.py `parse_args`
(lines 36-43): `batch_size = num_envs * num_steps`,
`num_minibatches = batch_size // minibatch_size`,
`num_updates = total_timesteps // batch_size`; again no validation. -/
def parse_args_torch (total_timesteps num_envs num_steps minibatch_size : Nat) :
    Except String TorchPpoArgs :=
  let batch_size := num_envs * num_steps
  let num_minibatches := batch_size / minibatch_size
  let num_updates := total_timesteps / batch_size
  Except.ok ⟨total_timesteps, num_envs, num_steps, minibatch_size,
    batch_size, num_minibatches, num_updates⟩

/-- The side-effecting operations of one gradient update, in source
order. -/
inductive UpdateOp
  | zeroGrad
  | backward
  | computeGrad
  | clipGradNorm
  | optimStep
deriving DecidableEq

/-- Per-minibatch update operations of src/src/ppo/pytorch_ppo_atari.py
(lines 326-329): `optimizer.zero_grad()`, `loss.backward()`,
`clip_grad_norm_(...)`, `optimizer.step()`. -/
def torch_ppo_update_ops : List UpdateOp :=
  [.zeroGrad, .backward, .clipGradNorm, .optimStep]

/-- Per-window update operations of src/src/a2c/pytorch_a2c_continuous.py
(lines 229-232). -/
def torch_a2c_update_ops : List UpdateOp :=
  [.zeroGrad, .backward, .clipGradNorm, .optimStep]

/-- Per-minibatch update operations of src/rl_gym/ppo_atari.py
(lines 297-300). -/
def rl_gym_ppo_update_ops : List UpdateOp :=
  [.zeroGrad, .backward, .clipGradNorm, .optimStep]

/-- Per-minibatch update operations of `train_step` in
src/src/ppo/flax_ppo_continuous.py (lines 156-159):
`jax.value_and_grad(loss_fn)` then `train_state.apply_gradients(grads=grads)`
with a plain `optax.adam` transform — no gradient-clipping call exists in
the script. -/
def flax_ppo_update_ops : List UpdateOp :=
  [.computeGrad, .optimStep]

/-- Per-window update operations of `train_step` in
src/src/a2c/flax_a2c_continuous.py (lines 144-155): likewise gradient
computation followed directly by `apply_gradients`, no clipping. -/
def flax_a2c_update_ops : List UpdateOp :=
  [.computeGrad, .optimStep]

/-- `clippedSteps prev ops` holds when every `optimStep` in `ops` is
immediately preceded by `clipGradNorm` (`prev` is the operation before the
head, if any). -/
def clippedSteps : Option UpdateOp → List UpdateOp → Bool
  | _, [] => true
  | prev, op :: rest =>
    (op != UpdateOp.optimStep || prev == some UpdateOp.clipGradNorm)
      && clippedSteps (some op) rest

/-- Global step counter of src/src/ppo/pytorch_ppo_atari.py (line 234) and
src/src/ppo/flax_ppo_continuous.py (line 222): starts at `0`, each
environment tick executes `global_step += 1 * num_envs`. -/
def global_step_src (num_envs : Nat) : Nat → Nat
  | 0 => 0
  | k + 1 => global_step_src num_envs k + 1 * num_envs

/-- Global step counter of src/rl_gym/ppo_atari.py (line 188): starts at
`0`, each environment tick executes `global_step += 1`, independent of
`num_envs`. -/
def global_step_rl_gym : Nat → Nat
  | 0 => 0
  | k + 1 => global_step_rl_gym k + 1

/-! ### Characterization of the backward GAE folds -/

lemma advLoop_fst_untouched (gamma gae : ℚ) (r f v : Nat → Nat → ℚ) :
    ∀ (n : Nat) (A : Nat → Nat → ℚ) (a l : Nat → ℚ) (t e : Nat), n ≤ t →
      (advLoop gamma gae r f v (revRange n) (A, a, l)).1 t e = A t e := by
  intro n
  induction n with
  | zero => intro A a l t e _; rfl
  | succ n ih =>
    intro A a l t e ht
    simp only [revRange, advLoop]
    rw [ih _ _ _ t e (by omega)]
    simp only [if_neg (show ¬t = n by omega)]

lemma advLoop_fst_rec (gamma gae : ℚ) (r f v : Nat → Nat → ℚ) :
    ∀ (n : Nat) (A : Nat → Nat → ℚ) (a l : Nat → ℚ) (t e : Nat), t < n →
      (advLoop gamma gae r f v (revRange n) (A, a, l)).1 t e =
        (r t e + gamma * f t e * (if t + 1 = n then l e else v (t + 1) e) - v t e)
          + gamma * gae * f t e *
            (if t + 1 = n then a e
             else (advLoop gamma gae r f v (revRange n) (A, a, l)).1 (t + 1) e) := by
  intro n
  induction n with
  | zero => intro A a l t e ht; exact absurd ht (Nat.not_lt_zero t)
  | succ n ih =>
    intro A a l t e ht
    by_cases hn : t = n
    · simp only [revRange, advLoop]
      rw [advLoop_fst_untouched gamma gae r f v n _ _ _ t e (by omega)]
      simp [hn]
    · have ht' : t < n := by omega
      have hne : ¬t + 1 = n + 1 := by omega
      simp only [revRange, advLoop]
      rw [ih _ _ _ t e ht']
      simp only [if_neg hne]
      by_cases hb : t + 1 = n
      · rw [advLoop_fst_untouched gamma gae r f v n _ _ _ (t + 1) e (by omega)]
        simp [hb]
      · simp only [if_neg hb]

lemma gaeLoop_fst_untouched (gamma gae : ℚ) (r v flags : Nat → Nat → ℚ) :
    ∀ (n : Nat) (A : Nat → Nat → ℚ) (a l : Nat → ℚ) (t e : Nat), n ≤ t →
      (gaeLoop gamma gae r v flags (revRange n) (A, a, l)).1 t e = A t e := by
  intro n
  induction n with
  | zero => intro A a l t e _; rfl
  | succ n ih =>
    intro A a l t e ht
    simp only [revRange, gaeLoop]
    rw [ih _ _ _ t e (by omega)]
    simp only [if_neg (show ¬t = n by omega)]

lemma gaeLoop_fst_rec (gamma gae : ℚ) (r v flags : Nat → Nat → ℚ) :
    ∀ (n : Nat) (A : Nat → Nat → ℚ) (a l : Nat → ℚ) (t e : Nat), t < n →
      (gaeLoop gamma gae r v flags (revRange n) (A, a, l)).1 t e =
        gamma * gae *
            (if t + 1 = n then a e
             else (gaeLoop gamma gae r v flags (revRange n) (A, a, l)).1 (t + 1) e)
            * (1 - flags t e)
          + (r t e + gamma * (if t + 1 = n then l e else v (t + 1) e) * (1 - flags t e)
              - v t e) := by
  intro n
  induction n with
  | zero => intro A a l t e ht; exact absurd ht (Nat.not_lt_zero t)
  | succ n ih =>
    intro A a l t e ht
    by_cases hn : t = n
    · simp only [revRange, gaeLoop]
      rw [gaeLoop_fst_untouched gamma gae r v flags n _ _ _ t e (by omega)]
      simp [hn]
    · have ht' : t < n := by omega
      have hne : ¬t + 1 = n + 1 := by omega
      simp only [revRange, gaeLoop]
      rw [ih _ _ _ t e ht']
      simp only [if_neg hne]
      by_cases hb : t + 1 = n
      · rw [gaeLoop_fst_untouched gamma gae r v flags n _ _ _ (t + 1) e (by omega)]
        simp [hb]
      · simp only [if_neg hb]

lemma compute_advantages_rec (n : Nat) (gamma gae : ℚ)
    (rewards values done : Nat → Nat → ℚ) (bootstrap : Nat → ℚ)
    (t e : Nat) (ht : t < n) :
    compute_advantages n gamma gae rewards (fun i e => 1 - done i e) values bootstrap t e =
      rewards t e
        + gamma * (if t + 1 = n then bootstrap e else values (t + 1) e) * (1 - done t e)
        - values t e
        + gamma * gae * (1 - done t e) *
          (if t + 1 = n then 0
           else compute_advantages n gamma gae rewards (fun i e => 1 - done i e)
                  values bootstrap (t + 1) e) := by
  simp only [compute_advantages]
  rw [advLoop_fst_rec gamma gae rewards (fun i e => 1 - done i e) values n _ _ _ t e ht]
  split_ifs with h
  · ring
  · ring

lemma compute_gae_rec (n : Nat) (gamma gae : ℚ)
    (rewards values done : Nat → Nat → ℚ) (bootstrap : Nat → ℚ)
    (t e : Nat) (ht : t < n) :
    compute_gae n rewards values done bootstrap gamma gae t e =
      rewards t e
        + gamma * (if t + 1 = n then bootstrap e else values (t + 1) e) * (1 - done t e)
        - values t e
        + gamma * gae * (1 - done t e) *
          (if t + 1 = n then 0
           else compute_gae n rewards values done bootstrap gamma gae (t + 1) e) := by
  simp only [compute_gae]
  rw [gaeLoop_fst_rec gamma gae rewards values done n _ _ _ t e ht]
  split_ifs with h
  · ring
  · ring

/-- C1: for every rewards, values and done arrays and every bootstrap
value, both GAE estimators (`compute_advantages`, fed
`flags = 1 - done` exactly as its caller does, and `compute_gae`, fed the
raw done flags) return advantages satisfying, at every step `t < num_steps`
and environment column `e`,
`adv[t] = delta[t] + gamma * gae_lambda * (1 - done[t]) * adv[t+1]` with
`adv[num_steps] = 0`, where
`delta[t] = r[t] + gamma * next_value[t] * (1 - done[t]) - values[t]` and
`next_value[t]` is `values[t+1]` for `t < num_steps - 1` and the bootstrap
value at `t = num_steps - 1`. -/
theorem gae_recursion (n : Nat) (gamma gae : ℚ)
    (rewards values done : Nat → Nat → ℚ) (bootstrap : Nat → ℚ)
    (t e : Nat) (ht : t < n) :
    compute_advantages n gamma gae rewards (fun i e => 1 - done i e) values bootstrap t e =
        rewards t e
          + gamma * (if t + 1 = n then bootstrap e else values (t + 1) e) * (1 - done t e)
          - values t e
          + gamma * gae * (1 - done t e) *
            (if t + 1 = n then 0
             else compute_advantages n gamma gae rewards (fun i e => 1 - done i e)
                    values bootstrap (t + 1) e)
      ∧ compute_gae n rewards values done bootstrap gamma gae t e =
          rewards t e
            + gamma * (if t + 1 = n then bootstrap e else values (t + 1) e) * (1 - done t e)
            - values t e
            + gamma * gae * (1 - done t e) *
              (if t + 1 = n then 0
               else compute_gae n rewards values done bootstrap gamma gae (t + 1) e) :=
  ⟨compute_advantages_rec n gamma gae rewards values done bootstrap t e ht,
    compute_gae_rec n gamma gae rewards values done bootstrap t e ht⟩

/-- Witness for C1: one fully concrete evaluation.  With
`n = 1, gamma = 2, gae_lambda = 3, r = 5, v = 7, done = 0, bootstrap = 11`
the recursion gives `adv[0] = 5 + 2 * 11 - 7 = 20` for both estimators. -/
theorem gae_recursion_witness :
    compute_advantages 1 2 3 (fun _ _ => 5) (fun i e => 1 - (fun _ _ => (0 : ℚ)) i e)
        (fun _ _ => 7) (fun _ => 11) 0 0 = 20
      ∧ compute_gae 1 (fun _ _ => 5) (fun _ _ => 7) (fun _ _ => 0) (fun _ => 11) 2 3 0 0 = 20 := by
  have h := gae_recursion 1 2 3 (fun _ _ => 5) (fun _ _ => 7) (fun _ _ => 0)
    (fun _ => 11) 0 0 (by decide)
  obtain ⟨h1, h2⟩ := h
  refine ⟨?_, ?_⟩
  · rw [h1]; norm_num
  · rw [h2]; norm_num

/-- C2: whenever `done[t] = 1`, both GAE estimators produce
`adv[t] = r[t] - values[t]` exactly; consequently `adv[t]` is unchanged
under any modification of the rewards, values or bootstrap away from cell
`(t, e)` (no cross-episode leakage). -/
theorem gae_done_boundary (n : Nat) (gamma gae : ℚ)
    (rewards values done rewards2 values2 : Nat → Nat → ℚ)
    (bootstrap bootstrap2 : Nat → ℚ) (t e : Nat) (ht : t < n)
    (hd : done t e = 1) (hr : rewards2 t e = rewards t e)
    (hv : values2 t e = values t e) :
    compute_gae n rewards values done bootstrap gamma gae t e =
        rewards t e - values t e
      ∧ compute_advantages n gamma gae rewards (fun i e => 1 - done i e)
          values bootstrap t e = rewards t e - values t e
      ∧ compute_gae n rewards2 values2 done bootstrap2 gamma gae t e =
          compute_gae n rewards values done bootstrap gamma gae t e := by
  have key : ∀ (r v : Nat → Nat → ℚ) (b : Nat → ℚ),
      compute_gae n r v done b gamma gae t e = r t e - v t e := by
    intro r v b
    have h := compute_gae_rec n gamma gae r v done b t e ht
    rw [h, hd]
    ring
  refine ⟨key rewards values bootstrap, ?_, ?_⟩
  · have h := compute_advantages_rec n gamma gae rewards values done bootstrap t e ht
    rw [h, hd]
    ring
  · rw [key rewards2 values2 bootstrap2, key rewards values bootstrap, hr, hv]

/-- Witness for C2: `n = 2`, `done[0] = 1`; changing the step-1 reward
from `5` to `99`, the step-1 value from `7` to `50` and the bootstrap from
`11` to `1000` leaves `adv[0] = 5 - 7 = -2` unchanged. -/
theorem gae_done_boundary_witness :
    compute_gae 2 (fun _ _ => 5) (fun _ _ => 7)
        (fun i _ => if i = 0 then 1 else 0) (fun _ => 11) 2 3 0 0 = 5 - 7
      ∧ compute_advantages 2 2 3 (fun _ _ => 5)
          (fun i e => 1 - (fun i _ => if i = 0 then (1 : ℚ) else 0) i e)
          (fun _ _ => 7) (fun _ => 11) 0 0 = 5 - 7
      ∧ compute_gae 2 (fun i _ => if i = 0 then 5 else 99)
          (fun i _ => if i = 0 then 7 else 50)
          (fun i _ => if i = 0 then 1 else 0) (fun _ => 1000) 2 3 0 0 =
          compute_gae 2 (fun _ _ => 5) (fun _ _ => 7)
            (fun i _ => if i = 0 then 1 else 0) (fun _ => 11) 2 3 0 0 := by
  have h := gae_done_boundary 2 2 3 (fun _ _ => 5) (fun _ _ => 7)
    (fun i _ => if i = 0 then 1 else 0) (fun i _ => if i = 0 then 5 else 99)
    (fun i _ => if i = 0 then 7 else 50) (fun _ => 11) (fun _ => 1000) 0 0
    (by decide) (by decide) (by decide) (by decide)
  exact h

/-! ### Buffer round-trip -/

lemma push_num_steps {S A : Type} (b : RolloutBuffer S A) (u : Transition S A) :
    (b.push u).num_steps = b.num_steps := rfl

lemma push_row_self {S A : Type} (b : RolloutBuffer S A) (u : Transition S A) :
    (b.push u).row b.step = u := by
  apply Transition.ext <;> funext e <;>
    simp [RolloutBuffer.push, RolloutBuffer.row, writeRow]

lemma push_row_other {S A : Type} (b : RolloutBuffer S A) (u : Transition S A)
    (t : Nat) (h : ¬t = b.step) : (b.push u).row t = b.row t := by
  apply Transition.ext <;> funext e <;>
    simp [RolloutBuffer.push, RolloutBuffer.row, writeRow, h]

lemma pushList_rows {S A : Type} :
    ∀ (l : List (Transition S A)) (b : RolloutBuffer S A),
      b.step + l.length ≤ b.num_steps →
      (∀ t, t < b.step → (pushList b l).row t = b.row t)
        ∧ ∀ j (hj : j < l.length),
            (pushList b l).row (b.step + j) = l.get ⟨j, hj⟩ := by
  intro l
  induction l with
  | nil =>
    intro b _
    exact ⟨fun t _ => rfl, fun j hj => absurd hj (Nat.not_lt_zero j)⟩
  | cons u rest ih =>
    intro b h
    have hs1 : b.step + 1 ≤ b.num_steps := by
      simp only [List.length_cons] at h
      omega
    by_cases hlt : b.step + 1 < b.num_steps
    · have hstep : (b.push u).step = b.step + 1 := by
        simp [RolloutBuffer.push, Nat.mod_eq_of_lt hlt]
      have hcond : (b.push u).step + rest.length ≤ (b.push u).num_steps := by
        rw [hstep, push_num_steps]
        simp only [List.length_cons] at h
        omega
      obtain ⟨ihPres, ihRows⟩ := ih (b.push u) hcond
      constructor
      · intro t htlt
        show (pushList (b.push u) rest).row t = b.row t
        rw [ihPres t (by omega), push_row_other b u t (by omega)]
      · intro j hj
        match j with
        | 0 =>
          show (pushList (b.push u) rest).row (b.step + 0) = u
          have := ihPres b.step (by omega)
          simpa [push_row_self] using this
        | j' + 1 =>
          have hj' : j' < rest.length := by
            simp only [List.length_cons] at hj
            omega
          have := ihRows j' hj'
          show (pushList (b.push u) rest).row (b.step + (j' + 1)) = rest.get ⟨j', hj'⟩
          rw [show b.step + (j' + 1) = (b.push u).step + j' by rw [hstep]; omega]
          exact this
    · have heq : b.step + 1 = b.num_steps := by omega
      have hrest : rest.length = 0 := by
        simp only [List.length_cons] at h
        omega
      rw [List.length_eq_zero] at hrest
      subst hrest
      constructor
      · intro t htlt
        show (b.push u).row t = b.row t
        exact push_row_other b u t (by omega)
      · intro j hj
        match j with
        | 0 =>
          show (b.push u).row (b.step + 0) = u
          simpa using push_row_self b u
        | j' + 1 => simp at hj

/-- C3: buffer round-trip.  Pushing `num_steps` arbitrary
(state, action, reward, flag, log_prob, value) rows in order onto a fresh
`RolloutBuffer` and reading the six arrays back with `get` yields, at row
`i` and every environment column `e`, exactly the `i`-th pushed row. -/
theorem buffer_roundtrip {S A : Type} (n : Nat) (s0 : S) (a0 : A)
    (l : List (Transition S A)) (hl : l.length = n) (i : Nat)
    (hi : i < l.length) (e : Nat) :
    ((pushList (RolloutBuffer.init S A n s0 a0) l).get).1 i e
        = (l.get ⟨i, hi⟩).state e
      ∧ ((pushList (RolloutBuffer.init S A n s0 a0) l).get).2.1 i e
          = (l.get ⟨i, hi⟩).action e
      ∧ ((pushList (RolloutBuffer.init S A n s0 a0) l).get).2.2.1 i e
          = (l.get ⟨i, hi⟩).reward e
      ∧ ((pushList (RolloutBuffer.init S A n s0 a0) l).get).2.2.2.1 i e
          = (l.get ⟨i, hi⟩).flag e
      ∧ ((pushList (RolloutBuffer.init S A n s0 a0) l).get).2.2.2.2.1 i e
          = (l.get ⟨i, hi⟩).log_prob e
      ∧ ((pushList (RolloutBuffer.init S A n s0 a0) l).get).2.2.2.2.2 i e
          = (l.get ⟨i, hi⟩).value e := by
  have hrow := (pushList_rows l (RolloutBuffer.init S A n s0 a0)
    (by simp [RolloutBuffer.init, hl])).2 i hi
  simp only [RolloutBuffer.init, Nat.zero_add] at hrow
  exact ⟨congrFun (congrArg Transition.state hrow) e,
    congrFun (congrArg Transition.action hrow) e,
    congrFun (congrArg Transition.reward hrow) e,
    congrFun (congrArg Transition.flag hrow) e,
    congrFun (congrArg Transition.log_prob hrow) e,
    congrFun (congrArg Transition.value hrow) e⟩

/-- Witness for C3: two concrete rows pushed into a fresh two-slot buffer
come back unchanged at rows 0 and 1. -/
theorem buffer_roundtrip_witness :
    ((pushList (RolloutBuffer.init ℚ ℚ 2 0 0)
        [⟨fun _ => 1, fun _ => 2, fun _ => 3, fun _ => 4, fun _ => 5, fun _ => 6⟩,
         ⟨fun _ => 7, fun _ => 8, fun _ => 9, fun _ => 10, fun _ => 11, fun _ => 12⟩]).get).1 1 0
        = 7
      ∧ ((pushList (RolloutBuffer.init ℚ ℚ 2 0 0)
          [⟨fun _ => 1, fun _ => 2, fun _ => 3, fun _ => 4, fun _ => 5, fun _ => 6⟩,
           ⟨fun _ => 7, fun _ => 8, fun _ => 9, fun _ => 10, fun _ => 11, fun _ => 12⟩]).get).2.2.1 0 0
          = 3 := by
  have h1 := buffer_roundtrip 2 (0 : ℚ) (0 : ℚ)
    [⟨fun _ => 1, fun _ => 2, fun _ => 3, fun _ => 4, fun _ => 5, fun _ => 6⟩,
     ⟨fun _ => 7, fun _ => 8, fun _ => 9, fun _ => 10, fun _ => 11, fun _ => 12⟩]
    rfl 1 (by decide) 0
  have h2 := buffer_roundtrip 2 (0 : ℚ) (0 : ℚ)
    [⟨fun _ => 1, fun _ => 2, fun _ => 3, fun _ => 4, fun _ => 5, fun _ => 6⟩,
     ⟨fun _ => 7, fun _ => 8, fun _ => 9, fun _ => 10, fun _ => 11, fun _ => 12⟩]
    rfl 0 (by decide) 0
  exact ⟨h1.1, h2.2.2.1⟩

/-! ### Minibatch partitioning and alignment -/

lemma join_slices : ∀ (k m : Nat) (l : List Nat), l.length = k * m →
    ((List.range k).map (fun i => (l.drop (i * m)).take m)).flatten = l := by
  intro k
  induction k with
  | zero =>
    intro m l hl
    rw [Nat.zero_mul] at hl
    rw [List.eq_nil_of_length_eq_zero hl]
    rfl
  | succ k ih =>
    intro m l hl
    rw [List.range_succ_eq_map, List.map_cons, List.flatten_cons, List.map_map]
    have hrest : (List.range k).map ((fun i => (l.drop (i * m)).take m) ∘ Nat.succ)
        = (List.range k).map (fun i => ((l.drop m).drop (i * m)).take m) := by
      apply List.map_congr_left
      intro i _
      simp only [Function.comp_apply]
      rw [List.drop_drop]
      congr 2
      rw [Nat.succ_mul, Nat.add_comm]
    rw [hrest, ih m (l.drop m)
      (by rw [List.length_drop, hl, Nat.succ_mul, Nat.add_sub_cancel])]
    rw [Nat.zero_mul, List.drop_zero, List.take_append_drop]

/-- C4: for every `batch_size = num_minibatches * minibatch_size` and every
shuffled index array (any permutation of `range(batch_size)`), the epoch's
minibatches — the contiguous slices `batch_indexes[start:end]`, equally the
rows of the `(num_minibatches, minibatch_size)` reshape — contain every
index `x < batch_size` exactly once in total: no omission, no
duplication. -/
theorem minibatch_partition (batch_size num_minibatches minibatch_size : Nat)
    (hdiv : batch_size = num_minibatches * minibatch_size)
    (batch_indexes : List Nat)
    (hperm : batch_indexes.Perm (List.range batch_size))
    (x : Nat) (hx : x < batch_size) :
    ((epochMinibatches batch_indexes num_minibatches minibatch_size).flatten).count x = 1 := by
  have hlen : batch_indexes.length = num_minibatches * minibatch_size := by
    rw [hperm.length_eq, List.length_range, hdiv]
  have hjoin : (epochMinibatches batch_indexes num_minibatches minibatch_size).flatten
      = batch_indexes := by
    simpa [epochMinibatches, minibatchIndexes] using
      join_slices num_minibatches minibatch_size batch_indexes hlen
  rw [hjoin, hperm.count_eq]
  exact List.count_eq_one_of_mem (List.nodup_range _) (List.mem_range.mpr hx)

/-- Witness for C4: `batch_size = 4`, two minibatches of size 2 over the
shuffled indexes `[2, 0, 3, 1]`; index 3 appears exactly once. -/
theorem minibatch_partition_witness :
    ((epochMinibatches [2, 0, 3, 1] 2 2).flatten).count 3 = 1 :=
  minibatch_partition 4 2 2 (by decide) [2, 0, 3, 1] (by decide) 3 (by decide)

/-- C10: minibatch alignment.  Row `j` of minibatch `k` gathers all five
batch components (state, action, old log-probability, advantage,
td-target) through one and the same index
`c = batch_indexes[k * minibatch_size + j]`: a state is never decoupled
from the action, log-probability, advantage or value target recorded with
it. -/
theorem minibatch_alignment {σ α : Type} (stateArr : Nat → σ) (actionArr : Nat → α)
    (logProbArr advArr tdArr : Nat → ℚ) (batch_indexes : List Nat)
    (minibatch_size k j : Nat) (s0 : σ) (a0 : α)
    (hj : j < (minibatchIndexes batch_indexes minibatch_size k).length) :
    ∃ c, c ∈ batch_indexes
      ∧ (gather stateArr (minibatchIndexes batch_indexes minibatch_size k)).getD j s0
          = stateArr c
      ∧ (gather actionArr (minibatchIndexes batch_indexes minibatch_size k)).getD j a0
          = actionArr c
      ∧ (gather logProbArr (minibatchIndexes batch_indexes minibatch_size k)).getD j 0
          = logProbArr c
      ∧ (gather advArr (minibatchIndexes batch_indexes minibatch_size k)).getD j 0
          = advArr c
      ∧ (gather tdArr (minibatchIndexes batch_indexes minibatch_size k)).getD j 0
          = tdArr c := by
  refine ⟨(minibatchIndexes batch_indexes minibatch_size k).get ⟨j, hj⟩, ?_, ?_, ?_, ?_, ?_, ?_⟩
  · have hmem : (minibatchIndexes batch_indexes minibatch_size k).get ⟨j, hj⟩
        ∈ minibatchIndexes batch_indexes minibatch_size k := List.get_mem _ _ _
    have hsub : List.Sublist (minibatchIndexes batch_indexes minibatch_size k) batch_indexes :=
      (List.take_sublist _ _).trans (List.drop_sublist _ _)
    exact hsub.subset hmem
  all_goals
    rw [List.getD_eq_getElem _ _ (by simpa [gather] using hj)]
    simp [gather]

/-- Witness for C10: indexes `[2, 0, 3, 1]`, minibatch 1 of size 2, row 0;
all five components are read through the common cell `c`. -/
theorem minibatch_alignment_witness :
    ∃ c : ℕ, c ∈ [2, 0, 3, 1]
      ∧ (gather (fun i => (i : ℚ)) (minibatchIndexes [2, 0, 3, 1] 2 1)).getD 0 0
          = (c : ℚ)
      ∧ (gather (fun i => (i : ℚ) + 1) (minibatchIndexes [2, 0, 3, 1] 2 1)).getD 0 0
          = (c : ℚ) + 1
      ∧ (gather (fun i => (i : ℚ) + 2) (minibatchIndexes [2, 0, 3, 1] 2 1)).getD 0 0
          = (c : ℚ) + 2
      ∧ (gather (fun i => (i : ℚ) + 3) (minibatchIndexes [2, 0, 3, 1] 2 1)).getD 0 0
          = (c : ℚ) + 3
      ∧ (gather (fun i => (i : ℚ) + 4) (minibatchIndexes [2, 0, 3, 1] 2 1)).getD 0 0
          = (c : ℚ) + 4 :=
  minibatch_alignment (fun i => (i : ℚ)) (fun i => (i : ℚ) + 1) (fun i => (i : ℚ) + 2)
    (fun i => (i : ℚ) + 3) (fun i => (i : ℚ) + 4) [2, 0, 3, 1] 2 1 0 0 0 (by decide)

/-! ### Discounted-return recursion -/

/-- The mathematical backward recursion computed by the TD-target loops:
`Gaux n g0 t = r t + Gaux n g0 (t+1) * gamma * (1 - f t)` for `t < n` and
`g0` beyond the horizon. -/
def Gaux (gamma : ℚ) (r f : Nat → ℚ) (n : Nat) (g0 : ℚ) (t : Nat) : ℚ :=
  if h : t < n then r t + Gaux gamma r f n g0 (t + 1) * gamma * (1 - f t) else g0
termination_by n - t
decreasing_by omega

lemma Gaux_unfold (gamma : ℚ) (r f : Nat → ℚ) (n : Nat) (g0 : ℚ) (t : Nat) :
    Gaux gamma r f n g0 t =
      if t < n then r t + Gaux gamma r f n g0 (t + 1) * gamma * (1 - f t) else g0 := by
  rw [Gaux]
  split_ifs <;> rfl

lemma Gaux_shift (gamma : ℚ) (r f : Nat → ℚ) (g0 : ℚ) (n : Nat) :
    ∀ t, t ≤ n →
      Gaux gamma r f (n + 1) g0 t
        = Gaux gamma r f n (r n + g0 * gamma * (1 - f n)) t := by
  suffices h : ∀ fuel t, t ≤ n → n - t = fuel →
      Gaux gamma r f (n + 1) g0 t
        = Gaux gamma r f n (r n + g0 * gamma * (1 - f n)) t from
    fun t ht => h (n - t) t ht rfl
  intro fuel
  induction fuel with
  | zero =>
    intro t ht hk
    have htn : t = n := by omega
    subst htn
    rw [Gaux_unfold gamma r f (t + 1) g0 t, if_pos (by omega),
      Gaux_unfold gamma r f (t + 1) g0 (t + 1), if_neg (by omega),
      Gaux_unfold gamma r f t _ t, if_neg (by omega)]
  | succ fuel ihf =>
    intro t ht hk
    have htn : t < n := by omega
    rw [Gaux_unfold gamma r f (n + 1) g0 t, if_pos (by omega),
      Gaux_unfold gamma r f n _ t, if_pos htn, ihf (t + 1) (by omega) (by omega)]

lemma Gaux_top (gamma : ℚ) (r f : Nat → ℚ) (g0 : ℚ) (n : Nat) :
    Gaux gamma r f (n + 1) g0 n = r n + g0 * gamma * (1 - f n) := by
  rw [Gaux_unfold gamma r f (n + 1) g0 n, if_pos (by omega),
    Gaux_unfold gamma r f (n + 1) g0 (n + 1), if_neg (by omega)]

lemma tdLoop_append (gamma : ℚ) (r f : Nat → ℚ) :
    ∀ (L : List Nat) (td0 : List ℚ) (g0 : ℚ),
      tdLoop gamma r f L (td0, g0)
        = (td0 ++ (tdLoop gamma r f L ([], g0)).1, (tdLoop gamma r f L ([], g0)).2) := by
  intro L
  induction L with
  | nil => intro td0 g0; simp [tdLoop]
  | cons i rest ih =>
    intro td0 g0
    show tdLoop gamma r f rest (td0 ++ [_], _) = _
    rw [ih (td0 ++ [r i + g0 * gamma * (1 - f i)]) (r i + g0 * gamma * (1 - f i))]
    conv_rhs =>
      rw [show tdLoop gamma r f (i :: rest) ([], g0)
          = tdLoop gamma r f rest ([] ++ [r i + g0 * gamma * (1 - f i)],
              r i + g0 * gamma * (1 - f i)) from rfl]
      rw [ih ([] ++ [r i + g0 * gamma * (1 - f i)]) (r i + g0 * gamma * (1 - f i))]
    simp

lemma tdLoop_revRange (gamma : ℚ) (r f : Nat → ℚ) :
    ∀ (n : Nat) (g0 : ℚ),
      (tdLoop gamma r f (revRange n) ([], g0)).1
        = ((List.range n).map (Gaux gamma r f n g0)).reverse := by
  intro n
  induction n with
  | zero => intro g0; rfl
  | succ n ih =>
    intro g0
    show (tdLoop gamma r f (revRange n) ([] ++ [_], _)).1 = _
    rw [tdLoop_append gamma r f (revRange n) ([] ++ [r n + g0 * gamma * (1 - f n)])
      (r n + g0 * gamma * (1 - f n))]
    rw [ih (r n + g0 * gamma * (1 - f n))]
    rw [List.range_succ, List.map_append, List.reverse_append]
    have hmap : (List.range n).map (Gaux gamma r f (n + 1) g0)
        = (List.range n).map (Gaux gamma r f n (r n + g0 * gamma * (1 - f n))) := by
      apply List.map_congr_left
      intro i hi
      exact Gaux_shift gamma r f g0 n i (by
        have := List.mem_range.mp hi
        omega)
    rw [hmap, List.map_cons, List.map_nil]
    simp [Gaux_top]

lemma tdArrLoop_fst_untouched (gamma : ℚ) (r f : Nat → Nat → ℚ) :
    ∀ (n : Nat) (A : Nat → Nat → ℚ) (g0 : Nat → ℚ) (t e : Nat), n ≤ t →
      (tdArrLoop gamma r f (revRange n) (A, g0)).1 t e = A t e := by
  intro n
  induction n with
  | zero => intro A g0 t e _; rfl
  | succ n ih =>
    intro A g0 t e ht
    simp only [revRange, tdArrLoop]
    rw [ih _ _ t e (by omega)]
    simp only [if_neg (show ¬t = n by omega)]

lemma tdArrLoop_fst_spec (gamma : ℚ) (r f : Nat → Nat → ℚ) :
    ∀ (n : Nat) (A : Nat → Nat → ℚ) (g0 : Nat → ℚ) (t e : Nat), t < n →
      (tdArrLoop gamma r f (revRange n) (A, g0)).1 t e
        = Gaux gamma (fun i => r i e) (fun i => f i e) n (g0 e) t := by
  intro n
  induction n with
  | zero => intro A g0 t e ht; exact absurd ht (Nat.not_lt_zero t)
  | succ n ih =>
    intro A g0 t e ht
    by_cases hn : t = n
    · simp only [revRange, tdArrLoop]
      rw [tdArrLoop_fst_untouched gamma r f n _ _ t e (by omega)]
      rw [hn, Gaux_top]
      simp
    · have htn : t < n := by omega
      simp only [revRange, tdArrLoop]
      rw [ih _ _ t e htn]
      rw [Gaux_shift gamma (fun i => r i e) (fun i => f i e) (g0 e) n t (by omega)]

lemma Gaux_zero_flags (gamma : ℚ) (r : Nat → ℚ) (n : Nat) :
    ∀ t, Gaux gamma r (fun _ => 0) n 0 t
      = ∑ k in Finset.Ico t n, gamma ^ (k - t) * r k := by
  suffices h : ∀ fuel t, n - t = fuel →
      Gaux gamma r (fun _ => 0) n 0 t
        = ∑ k in Finset.Ico t n, gamma ^ (k - t) * r k from fun t => h (n - t) t rfl
  intro fuel
  induction fuel with
  | zero =>
    intro t hk
    rw [Gaux_unfold, if_neg (by omega), Finset.Ico_eq_empty (by omega),
      Finset.sum_empty]
  | succ fuel ihf =>
    intro t hk
    have htn : t < n := by omega
    rw [Gaux_unfold, if_pos htn, ihf (t + 1) (by omega),
      Finset.sum_eq_sum_Ico_succ_bot htn]
    have hsum : (∑ k in Finset.Ico (t + 1) n, gamma ^ (k - (t + 1)) * r k) * gamma
        = ∑ k in Finset.Ico (t + 1) n, gamma ^ (k - t) * r k := by
      rw [Finset.sum_mul]
      apply Finset.sum_congr rfl
      intro k hkmem
      have hk1 : t + 1 ≤ k := (Finset.mem_Ico.mp hkmem).1
      have hexp : k - t = (k - (t + 1)) + 1 := by omega
      rw [hexp, pow_succ]
      ring
    rw [← hsum]
    simp only [Nat.sub_self, pow_zero, one_mul]
    ring

/-- C5: with all done flags false, both discounted-return recursions (the
`vmap`-ped list-building `compute_td_target` of the flax A2C script and the
array-writing loop of the pytorch A2C script) produce, at every step
`t < num_steps` and environment column `e`, the closed form
`G[t] = sum over k in [t, num_steps) of gamma^(k-t) * r[k]`. -/
theorem discounted_return_closed_form (n : Nat) (gamma : ℚ)
    (rewards : Nat → Nat → ℚ) (t e : Nat) (ht : t < n) :
    (compute_td_target rewards (fun _ _ => 0) gamma n e).getD t 0
        = ∑ k in Finset.Ico t n, gamma ^ (k - t) * rewards k e
      ∧ td_target_torch n gamma rewards (fun _ _ => 0) t e
        = ∑ k in Finset.Ico t n, gamma ^ (k - t) * rewards k e := by
  constructor
  · simp only [compute_td_target]
    rw [tdLoop_revRange gamma (fun i => rewards i e) (fun i => (0 : ℚ)) n 0,
      List.reverse_reverse]
    rw [List.getD_eq_getElem _ _ (by simpa using ht)]
    rw [List.getElem_map, List.getElem_range]
    exact Gaux_zero_flags gamma (fun i => rewards i e) n t
  · simp only [td_target_torch]
    rw [tdArrLoop_fst_spec gamma rewards (fun _ _ => 0) n _ _ t e ht]
    exact Gaux_zero_flags gamma (fun i => rewards i e) n t

/-- Witness for C5: `n = 2, gamma = 2, r = [1, 2]` gives
`G[0] = 1 + 2 * 2 = 5` along both code paths. -/
theorem discounted_return_witness :
    (compute_td_target (fun i _ => (i : ℚ) + 1) (fun _ _ => 0) 2 2 0).getD 0 0 = 5
      ∧ td_target_torch 2 2 (fun i _ => (i : ℚ) + 1) (fun _ _ => 0) 0 0 = 5 := by
  have h := discounted_return_closed_form 2 2 (fun i _ => (i : ℚ) + 1) 0 0 (by decide)
  constructor
  · rw [h.1, show Finset.Ico 0 2 = ({0, 1} : Finset ℕ) by decide,
      Finset.sum_pair (by decide)]
    norm_num
  · rw [h.2, show Finset.Ico 0 2 = ({0, 1} : Finset ℕ) by decide,
      Finset.sum_pair (by decide)]
    norm_num

/-! ### Explained variance, configuration checks, clipping, step counter -/

/-- C6: the explained-variance computation yields the NaN sentinel
(modelled as `none`) exactly when the variance of `td_target` is zero —
the conditional guards the division, which is never evaluated in that
case — and otherwise yields
`1 - var(td_target - values) / var(td_target)`. -/
theorem explained_variance_guard (td_target values : List ℚ) :
    (torchVar td_target = 0 → explained_var td_target values = none)
      ∧ (torchVar td_target ≠ 0 →
          explained_var td_target values
            = some (1 - torchVar (List.zipWith (fun a b => a - b) td_target values)
                / torchVar td_target)) := by
  constructor
  · intro h
    simp [explained_var, h]
  · intro h
    simp [explained_var, h]

/-- Witness for C6: the constant target `[2, 2, 2]` has zero variance and
produces the sentinel; the target `[0, 2]` has variance 2 and produces
`some (1 - 2 / 2) = some 0` against the predictions `[0, 0]`. -/
theorem explained_variance_guard_witness :
    explained_var [2, 2, 2] [0, 0, 1] = none
      ∧ explained_var [0, 2] [0, 0] = some 0 := by
  constructor
  · exact (explained_variance_guard [2, 2, 2] [0, 0, 1]).1
      (by norm_num [torchVar, listMean])
  · rw [(explained_variance_guard [0, 2] [0, 0]).2
      (by norm_num [torchVar, listMean])]
    norm_num [torchVar, listMean]

/-- C7 counterexample: the configuration
`total_timesteps = 1000, num_envs = 1, num_steps = 10, num_minibatches = 3`
has `batch_size = 10` not divisible by `num_minibatches = 3`, yet startup
parsing succeeds, silently deriving `minibatch_size = 10 // 3 = 3` (so the
minibatches cover only `3 * 3 = 9 ≠ 10` cells): the program does not
detect the misconfiguration at startup and does not fail before training
begins. -/
theorem parse_args_no_divisibility_check :
    parse_args_flax 1000 1 10 3 = Except.ok ⟨1000, 1, 10, 3, 10, 3, 100⟩
      ∧ ¬3 ∣ 10 ∧ 3 * 3 ≠ 10 :=
  ⟨rfl, by decide, by decide⟩

/-- C7 amended: neither `parse_args` performs any divisibility (or other)
validation: for every configuration, both startup derivations succeed
unconditionally, computing the derived quantities by floor division; a
`batch_size` not divisible by `num_minibatches` is accepted and the error,
if any, can only surface after rollout collection has begun. -/
theorem parse_args_always_succeeds (tt ne ns nm ms : Nat) :
    parse_args_flax tt ne ns nm
        = Except.ok ⟨tt, ne, ns, nm, ne * ns, ne * ns / nm, tt / (ne * ns)⟩
      ∧ parse_args_torch tt ne ns ms
        = Except.ok ⟨tt, ne, ns, ms, ne * ns, ne * ns / ms, tt / (ne * ns)⟩ :=
  ⟨rfl, rfl⟩

/-- C8 counterexample: the flax PPO and flax A2C `train_step` update
traces each contain an optimizer step that is not immediately preceded by
a gradient-norm clipping operation (the scripts use a plain `optax.adam`
transform and call `apply_gradients` on the raw gradients), refuting
"an optimizer step on unclipped gradients never occurs". -/
theorem unclipped_optimizer_step_exists :
    clippedSteps none flax_ppo_update_ops = false
      ∧ clippedSteps none flax_a2c_update_ops = false := by decide

/-- C8 amended: the three pytorch update engines
(pytorch_ppo_atari, pytorch_a2c_continuous, rl_gym/ppo_atari) clip the
gradient norm immediately before every optimizer step; the two flax
update engines apply gradients without any clipping. -/
theorem gradient_clipping_by_variant :
    clippedSteps none torch_ppo_update_ops = true
      ∧ clippedSteps none torch_a2c_update_ops = true
      ∧ clippedSteps none rl_gym_ppo_update_ops = true
      ∧ clippedSteps none flax_ppo_update_ops = false
      ∧ clippedSteps none flax_a2c_update_ops = false := by decide

/-- C9 counterexample: the orchestrator of src/rl_gym/ppo_atari.py
advances the global step counter by `1` per tick regardless of the
configured `num_envs` (its default is `num_envs = 4`): after one tick its
counter holds `1`, not `1 * 4`. -/
theorem global_step_rl_gym_counterexample :
    global_step_rl_gym 1 = 1 ∧ global_step_rl_gym 1 ≠ 1 * 4 := by decide

/-- C9 amended: the orchestrators of src/src/ppo/pytorch_ppo_atari.py and
src/src/ppo/flax_ppo_continuous.py advance the global step counter by
exactly `num_envs` per environment tick, so after `k` ticks it equals
`k * num_envs`; the orchestrator of src/rl_gym/ppo_atari.py instead
advances it by `1` per tick, so after `k` ticks it equals `k`. -/
theorem global_step_closed_form (num_envs k : Nat) :
    global_step_src num_envs k = k * num_envs ∧ global_step_rl_gym k = k := by
  induction k with
  | zero => exact ⟨by rw [Nat.zero_mul]; rfl, rfl⟩
  | succ k ih =>
    refine ⟨?_, ?_⟩
    · show global_step_src num_envs k + 1 * num_envs = (k + 1) * num_envs
      rw [ih.1]
      ring
    · show global_step_rl_gym k + 1 = k + 1
      rw [ih.2]

end RlGymZoo
